import Mathlib

/-!
# Verification of `utils/gridder/create_grid.py` (dhmin)

Shallow embedding of the square-grid generator: input validation,
lattice coordinate synthesis with optional positional noise, and
edge-topology synthesis from the lattice.

Modelling conventions:
* Coordinates are exact rationals (`ℚ`); the Python floats are taken at
  real-number semantics, floating-point rounding is out of scope.
* `np.random.rand()` is modelled by an injected stream `rand : ℕ → ℚ`
  of draws; the `k`-th generated point consumes draws `2*k` (x axis)
  and `2*k + 1` (y axis), matching the sequential evaluation order of
  `list(map(_fuzz, points))`.
* Python's optional parameters `num_edge_y = None` and `dy = None` are
  `Option` arguments; the source replaces a falsy value (`None` or `0`)
  by the default, which the `eff…` helpers reproduce.
* Fallible execution is `Except GridError`: `_check_input`'s
  `TypeError`/`ValueError`, and the `ZeroDivisionError` that
  `np.arange` raises when its step is zero.
* The trailing `GeoDataFrame` packaging and the external
  `match_vertices_and_edges` collaborator add identifiers but do not
  change geometry or counts; the embedding returns the vertex
  coordinate list and the edge (endpoint-pair) list in order, so the
  `Vertex`/`Edge` integer identifiers are the list positions.
-/

/-- Errors that `create_square_grid` can raise. -/
inductive GridError where
  | typeError : GridError
  | valueError : GridError
  | zeroDivisionError : GridError
  deriving DecidableEq, Repr

/-- A 2-D point. -/
abbrev Pt : Type := ℚ × ℚ

/-- An edge, by its two endpoint coordinates (taken by value). -/
abbrev Seg : Type := Pt × Pt

/-- `np.arange(start, stop, step)` over exact rationals: `none` models the
`ZeroDivisionError` numpy raises on a zero step, otherwise the list
`start + k*step` for `0 ≤ k < max 0 ⌈(stop - start)/step⌉`. -/
def arange (start stop step : ℚ) : Option (List ℚ) :=
  if step = 0 then none
  else some ((List.range (max 0 ⌈(stop - start) / step⌉).toNat).map
    (fun k : ℕ => start + (k : ℚ) * step))

/-- `MAX_NOISE = 0.45` (relative to dx, dy). -/
def MAX_NOISE : ℚ := 45 / 100

/-- Line 57, `dy = dx if not dy else dy`: a falsy `dy` (`None` or `0`)
is replaced by `dx`. -/
def effDy (dx : ℚ) (dy : Option ℚ) : ℚ :=
  match dy with
  | none => dx
  | some d => if d = 0 then dx else d

/-- Line 58, `num_edge_y = num_edge_x if not num_edge_y else num_edge_y`:
a falsy `num_edge_y` (`None` or `0`) is replaced by `num_edge_x`. -/
def effNumEdgeY (num_edge_x : ℤ) (num_edge_y : Option ℤ) : ℤ :=
  match num_edge_y with
  | none => num_edge_x
  | some n => if n = 0 then num_edge_x else n

/-- Lines 61–65: the per-axis fuzz radius, `d * noise_prop` clamped to
`MAX_NOISE * d` when `noise_prop > MAX_NOISE`. -/
def fuzzRadius (noise_prop d : ℚ) : ℚ :=
  if noise_prop > MAX_NOISE then MAX_NOISE * d else d * noise_prop

/-- `_check_input` (lines 20–26), on the already substituted `num_edge_y`
and `dy`.  The origin is a pair of rationals by type, so the first guard
(`len(origo_xy) != 2` or non-numeric components) can never fire in the
embedding and the first possible error is the `ValueError` on the edge
counts, then the `ValueError` on `dx`, `dy`, `noise_prop`. -/
def check_input (num_edge_x num_edge_y : ℤ) (dx dy noise_prop : ℚ) :
    Option GridError :=
  if num_edge_x < 1 ∨ num_edge_y < 1 then some GridError.valueError
  else if dx < 0 ∨ dy < 0 ∨ noise_prop < 0 then some GridError.valueError
  else none

/-- One application of the inner `_fuzz` (lines 81–83) to a point, given
the two uniform draws `u` (for x) and `v` (for y). -/
def fuzzPoint (rx ry u v : ℚ) (xy : Pt) : Pt :=
  (xy.1 + rx * (2 * u - 1), xy.2 + ry * (2 * v - 1))

/-- `points = list(map(lambda xy: _fuzz(xy), points))` (line 85): the
`k`-th point consumes draws `2*k` and `2*k + 1` from the stream. -/
def fuzzPoints (rx ry : ℚ) (rand : ℕ → ℚ) (pts : List Pt) : List Pt :=
  pts.mapIdx (fun k xy => fuzzPoint rx ry (rand (2 * k)) (rand (2 * k + 1)) xy)

/-- `iter_product(coords_x, coords_y)` (line 78): the Cartesian product in
row-major order, axis 0 varying slower. -/
def productPoints (cx cy : List ℚ) : List Pt :=
  cx.flatMap (fun x => cy.map (fun y => (x, y)))

/-- `np.array(points).reshape(num_vert_x, num_vert_y, 2)` (line 89):
entry `(i, j)` of the matrix is the flat point at index `i*ny + j`
(numpy's row-major reshape; in use `pts.length = nx*ny` so the default
is never read). -/
def np_reshape (pts : List Pt) (nx ny : ℕ) : List (List Pt) :=
  (List.range nx).map (fun i =>
    (List.range ny).map (fun j => pts.getD (i * ny + j) (0, 0)))

/-- `np.transpose(point_matrix, (1, 0, 2))` (line 14): swap the two
logical axes of a rectangular matrix, entry `(j, i)` of the result being
entry `(i, j)` of the argument. -/
def np_transpose (m : List (List Pt)) : List (List Pt) :=
  (List.range (m.headD []).length).map (fun j =>
    m.map (fun row => row.getD j (0, 0)))

/-- `zip(row[:-1], row[1:])` (lines 13 and 15): consecutive pairs of a
row. -/
def consecPairs (row : List Pt) : List Seg :=
  List.zip row.dropLast row.tail

/-- `_gen_grid_edges` (lines 9–17): segments between consecutive points
of every row, then of every row of the transposed matrix. -/
def gen_grid_edges (point_matrix : List (List Pt)) : List Seg :=
  point_matrix.flatMap consecPairs
    ++ (np_transpose point_matrix).flatMap consecPairs

/-- `create_square_grid` (lines 29–100).  Returns the ordered vertex
coordinate list and the ordered edge list (their positions are the
`Vertex` / `Edge` identifiers); the CRS argument `epsg` only tags the
output and is omitted. -/
def create_square_grid (origo_xy : Pt) (num_edge_x : ℤ)
    (num_edge_y : Option ℤ) (dx : ℚ) (dy : Option ℚ) (noise_prop : ℚ)
    (rand : ℕ → ℚ) : Except GridError (List Pt × List Seg) :=
  -- variable init (lines 56–65)
  let xx := origo_xy.1
  let yy := origo_xy.2
  let dyv := effDy dx dy
  let ney := effNumEdgeY num_edge_x num_edge_y
  let num_vert_x := num_edge_x + 1
  let num_vert_y := ney + 1
  let fuzz_radius_x := fuzzRadius noise_prop dx
  let fuzz_radius_y := fuzzRadius noise_prop dyv
  -- _check_input (line 69)
  match check_input num_edge_x ney dx dyv noise_prop with
  | some e => Except.error e
  | none =>
    -- offsetted point coordinates (lines 72–78)
    match arange xx (xx + dx * num_vert_x) dx,
          arange yy (yy + dyv * num_vert_y) dyv with
    | some coords_x, some coords_y =>
      let points0 := productPoints coords_x coords_y
      -- add fuzz (lines 80–85)
      let points := if noise_prop > 0
        then fuzzPoints fuzz_radius_x fuzz_radius_y rand points0
        else points0
      -- shapely objects and edges (lines 87–90)
      let point_matrix := np_reshape points num_vert_x.toNat num_vert_y.toNat
      Except.ok (points, gen_grid_edges point_matrix)
    | _, _ => Except.error GridError.zeroDivisionError

/-! ## Derived views of a successful run

`rowBatch`/`colBatch` give the index-level closed form of the two edge
batches, and `gridPoints` the flat vertex list; the lemmas below prove
that a run of `create_square_grid` produces exactly these. -/

/-- The arithmetic axis sequence `ori, ori + dc, …` of length `n`
(what `np.arange(ori, ori + dc*n, dc)` yields for `dc > 0`). -/
def axisList (ori dc : ℚ) (n : ℕ) : List ℚ :=
  (List.range n).map (fun k : ℕ => ori + (k : ℚ) * dc)

/-- The unperturbed lattice points of a run, in flat row-major order
(`dyv` is the already substituted vertical step). -/
def gridPoints0 (xx yy : ℚ) (ex ey : ℤ) (dx dyv : ℚ) : List Pt :=
  productPoints (axisList xx dx (ex.toNat + 1)) (axisList yy dyv (ey.toNat + 1))

/-- The flat vertex list returned by a successful run. -/
def gridPoints (xx yy : ℚ) (ex ey : ℤ) (dx dyv noise : ℚ)
    (rand : ℕ → ℚ) : List Pt :=
  if noise > 0 then
    fuzzPoints (fuzzRadius noise dx) (fuzzRadius noise dyv) rand
      (gridPoints0 xx yy ex ey dx dyv)
  else gridPoints0 xx yy ex ey dx dyv

/-- The first batch of edges: for each of the `nx` rows (first lattice
index fixed), the `ny - 1` segments between consecutive points of the
row (index 1 varying). -/
def rowBatch (pts : List Pt) (nx ny : ℕ) : List Seg :=
  (List.range nx).flatMap (fun i => (List.range (ny - 1)).map
    (fun j => (pts.getD (i * ny + j) (0, 0), pts.getD (i * ny + (j + 1)) (0, 0))))

/-- The second batch of edges, from the transposed matrix: for each of
the `ny` columns (index 1 fixed), the `nx - 1` segments between
consecutive points of the column (first index varying). -/
def colBatch (pts : List Pt) (nx ny : ℕ) : List Seg :=
  (List.range ny).flatMap (fun j => (List.range (nx - 1)).map
    (fun i => (pts.getD (i * ny + j) (0, 0), pts.getD ((i + 1) * ny + j) (0, 0))))

/-! ## List infrastructure -/

lemma flatMap_map_eq {α β γ : Type} (l : List α) (f : α → β) (g : β → List γ) :
    (l.map f).flatMap g = l.flatMap (fun a => g (f a)) := by
  induction l with
  | nil => rfl
  | cons x xs ih => simp [List.flatMap_cons, ih]

lemma axisList_length (ori dc : ℚ) (n : ℕ) : (axisList ori dc n).length = n := by
  unfold axisList
  rw [List.length_map, List.length_range]

lemma axisList_getD (ori dc : ℚ) (n k : ℕ) (h : k < n) :
    (axisList ori dc n).getD k 0 = ori + k * dc := by
  unfold axisList
  rw [List.getD_eq_getElem _ _ (by rw [List.length_map, List.length_range]; exact h)]
  rw [List.getElem_map, List.getElem_range]

lemma productPoints_cons (x : ℚ) (xs cy : List ℚ) :
    productPoints (x :: xs) cy = (cy.map fun y => (x, y)) ++ productPoints xs cy :=
  rfl

lemma productPoints_length (cx cy : List ℚ) :
    (productPoints cx cy).length = cx.length * cy.length := by
  induction cx with
  | nil => simp [productPoints]
  | cons x xs ih =>
    rw [productPoints_cons, List.length_append, ih, List.length_map,
      List.length_cons]
    ring

lemma productPoints_getD (cx cy : List ℚ) (i j : ℕ)
    (hi : i < cx.length) (hj : j < cy.length) :
    (productPoints cx cy).getD (i * cy.length + j) (0, 0) =
      (cx.getD i 0, cy.getD j 0) := by
  induction cx generalizing i with
  | nil => simp at hi
  | cons x xs ih =>
    rw [productPoints_cons]
    cases i with
    | zero =>
      rw [Nat.zero_mul, Nat.zero_add,
        List.getD_append _ _ _ _ (by simpa using hj)]
      rw [List.getD_eq_getElem _ _ (by simpa using hj), List.getElem_map]
      rw [List.getD_eq_getElem _ _ hj]
      rfl
    | succ i =>
      have hidx : (i + 1) * cy.length + j = cy.length + (i * cy.length + j) := by
        ring
      rw [hidx, List.getD_append_right _ _ _ _ (by simp), List.length_map,
        Nat.add_sub_cancel_left, List.getD_cons_succ]
      exact ih i (by simpa using hi)

lemma fuzzPoints_length (rx ry : ℚ) (rand : ℕ → ℚ) (pts : List Pt) :
    (fuzzPoints rx ry rand pts).length = pts.length := by
  simp [fuzzPoints]

lemma fuzzPoints_getD (rx ry : ℚ) (rand : ℕ → ℚ) (pts : List Pt) (k : ℕ)
    (h : k < pts.length) :
    (fuzzPoints rx ry rand pts).getD k (0, 0) =
      fuzzPoint rx ry (rand (2 * k)) (rand (2 * k + 1)) (pts.getD k (0, 0)) := by
  unfold fuzzPoints
  rw [List.getD_eq_getElem _ _ (by simpa [fuzzPoints] using h),
    List.getElem_mapIdx, List.getD_eq_getElem _ _ h]

lemma arange_pos (start step : ℚ) (n : ℕ) (h : 0 < step) :
    arange start (start + step * n) step = some (axisList start step n) := by
  unfold arange axisList
  rw [if_neg h.ne']
  have h1 : (start + step * n - start) / step = (n : ℚ) := by
    rw [add_sub_cancel_left, mul_div_cancel_left₀ _ h.ne']
  rw [h1, Int.ceil_natCast]
  norm_num

lemma np_reshape_length (pts : List Pt) (nx ny : ℕ) :
    (np_reshape pts nx ny).length = nx := by
  unfold np_reshape
  rw [List.length_map, List.length_range]

lemma np_transpose_reshape (pts : List Pt) (nx ny : ℕ) (hx : 0 < nx) :
    np_transpose (np_reshape pts nx ny) =
      (List.range ny).map (fun j =>
        (List.range nx).map (fun i => pts.getD (i * ny + j) (0, 0))) := by
  have hlen : ((np_reshape pts nx ny).headD []).length = ny := by
    obtain ⟨m, rfl⟩ : ∃ m, nx = m + 1 := ⟨nx - 1, by omega⟩
    unfold np_reshape
    rw [List.range_succ_eq_map, List.map_cons, List.headD_cons,
      List.length_map, List.length_range]
  unfold np_transpose
  rw [hlen]
  refine List.map_congr_left (fun j hj => ?_)
  rw [List.mem_range] at hj
  unfold np_reshape
  rw [List.map_map]
  refine List.map_congr_left (fun i _ => ?_)
  simp only [Function.comp_apply]
  rw [List.getD_eq_getElem _ _ (by rw [List.length_map, List.length_range]; exact hj),
    List.getElem_map, List.getElem_range]

lemma consecPairs_rangeMap (f : ℕ → Pt) (n : ℕ) :
    consecPairs ((List.range n).map f) =
      (List.range (n - 1)).map (fun j => (f j, f (j + 1))) := by
  cases n with
  | zero => rfl
  | succ m =>
    unfold consecPairs
    rw [← List.map_dropLast, ← List.map_tail]
    have hd : (List.range (m + 1)).dropLast = List.range m := by
      rw [List.range_succ, List.dropLast_concat]
    have ht : (List.range (m + 1)).tail = (List.range m).map Nat.succ := by
      rw [List.range_succ_eq_map, List.tail_cons]
    rw [hd, ht, List.map_map, List.zip_map']
    simp only [Nat.add_sub_cancel, Function.comp_apply, Nat.succ_eq_add_one]

lemma gen_grid_edges_reshape (pts : List Pt) (nx ny : ℕ) (hx : 0 < nx) :
    gen_grid_edges (np_reshape pts nx ny) =
      rowBatch pts nx ny ++ colBatch pts nx ny := by
  unfold gen_grid_edges
  rw [np_transpose_reshape pts nx ny hx]
  unfold np_reshape rowBatch colBatch
  rw [flatMap_map_eq, flatMap_map_eq]
  congr 1
  · congr 1
    funext i
    rw [consecPairs_rangeMap]
  · congr 1
    funext j
    rw [consecPairs_rangeMap]

lemma sum_map_const_range {n c : ℕ} :
    ((List.range n).map (fun _ => c)).sum = n * c := by
  rw [List.map_const', List.sum_replicate, List.length_range, smul_eq_mul]

lemma rowBatch_length (pts : List Pt) (nx ny : ℕ) :
    (rowBatch pts nx ny).length = nx * (ny - 1) := by
  unfold rowBatch
  rw [List.length_flatMap]
  have : ∀ g : ℕ → List Seg, (∀ i, (g i).length = ny - 1) →
      (List.map (List.length ∘ g) (List.range nx)).sum = nx * (ny - 1) := by
    intro g hg
    have : List.length ∘ g = fun _ => ny - 1 := funext (fun i => hg i)
    rw [this, sum_map_const_range]
  refine this _ (fun i => ?_)
  rw [List.length_map, List.length_range]

lemma colBatch_length (pts : List Pt) (nx ny : ℕ) :
    (colBatch pts nx ny).length = ny * (nx - 1) := by
  unfold colBatch
  rw [List.length_flatMap]
  have : ∀ g : ℕ → List Seg, (∀ j, (g j).length = nx - 1) →
      (List.map (List.length ∘ g) (List.range ny)).sum = ny * (nx - 1) := by
    intro g hg
    have : List.length ∘ g = fun _ => nx - 1 := funext (fun j => hg j)
    rw [this, sum_map_const_range]
  refine this _ (fun j => ?_)
  rw [List.length_map, List.length_range]

lemma effNumEdgeY_of_pos (ex ey : ℤ) (hey : 1 ≤ ey) :
    effNumEdgeY ex (some ey) = ey := by
  show (if ey = 0 then ex else ey) = ey
  rw [if_neg (by omega)]

lemma effDy_of_pos (dx dy : ℚ) (hdy : 0 < dy) : effDy dx (some dy) = dy := by
  show (if dy = 0 then dx else dy) = dy
  rw [if_neg hdy.ne']

lemma effDy_pos (dx dy : ℚ) (hdx : 0 < dx) (hdy : 0 ≤ dy) :
    0 < effDy dx (some dy) := by
  show 0 < if dy = 0 then dx else dy
  split_ifs with h
  · exact hdx
  · exact lt_of_le_of_ne hdy (Ne.symm h)

lemma gridPoints0_length (xx yy : ℚ) (ex ey : ℤ) (dx dyv : ℚ) :
    (gridPoints0 xx yy ex ey dx dyv).length = (ex.toNat + 1) * (ey.toNat + 1) := by
  unfold gridPoints0
  rw [productPoints_length, axisList_length, axisList_length]

lemma gridPoints_length (xx yy : ℚ) (ex ey : ℤ) (dx dyv noise : ℚ)
    (rand : ℕ → ℚ) :
    (gridPoints xx yy ex ey dx dyv noise rand).length =
      (ex.toNat + 1) * (ey.toNat + 1) := by
  unfold gridPoints
  split_ifs
  · rw [fuzzPoints_length, gridPoints0_length]
  · exact gridPoints0_length xx yy ex ey dx dyv

lemma idx_lt {i j nx ny : ℕ} (hi : i < nx) (hj : j < ny) :
    i * ny + j < nx * ny :=
  calc i * ny + j < i * ny + ny := by omega
  _ = (i + 1) * ny := by ring
  _ ≤ nx * ny := Nat.mul_le_mul_right ny hi

lemma gridPoints0_getD (xx yy : ℚ) (ex ey : ℤ) (dx dyv : ℚ) (i j : ℕ)
    (hi : i < ex.toNat + 1) (hj : j < ey.toNat + 1) :
    (gridPoints0 xx yy ex ey dx dyv).getD (i * (ey.toNat + 1) + j) (0, 0) =
      (xx + (i : ℚ) * dx, yy + (j : ℚ) * dyv) := by
  unfold gridPoints0
  have h := productPoints_getD (axisList xx dx (ex.toNat + 1))
    (axisList yy dyv (ey.toNat + 1)) i j
    (by rw [axisList_length]; exact hi) (by rw [axisList_length]; exact hj)
  rw [axisList_length] at h
  rw [h, axisList_getD _ _ _ _ hi, axisList_getD _ _ _ _ hj]

lemma gridPoints_getD (xx yy : ℚ) (ex ey : ℤ) (dx dyv noise : ℚ)
    (rand : ℕ → ℚ) (i j : ℕ) (hi : i < ex.toNat + 1) (hj : j < ey.toNat + 1) :
    (gridPoints xx yy ex ey dx dyv noise rand).getD
        (i * (ey.toNat + 1) + j) (0, 0) =
      if noise > 0 then
        fuzzPoint (fuzzRadius noise dx) (fuzzRadius noise dyv)
          (rand (2 * (i * (ey.toNat + 1) + j)))
          (rand (2 * (i * (ey.toNat + 1) + j) + 1))
          (xx + (i : ℚ) * dx, yy + (j : ℚ) * dyv)
      else (xx + (i : ℚ) * dx, yy + (j : ℚ) * dyv) := by
  unfold gridPoints
  split_ifs
  · rw [fuzzPoints_getD _ _ _ _ _ (by rw [gridPoints0_length]; exact idx_lt hi hj),
      gridPoints0_getD xx yy ex ey dx dyv i j hi hj]
  · exact gridPoints0_getD xx yy ex ey dx dyv i j hi hj

/-- A successful run of `create_square_grid`: with well-formed inputs
(`num_edge_x, num_edge_y ≥ 1`, `dx > 0`, `dy ≥ 0`, `noise_prop ≥ 0`)
the call returns the flat vertex list `gridPoints` together with the
edges synthesized from its `(num_vert_x, num_vert_y)` reshape. -/
lemma create_square_grid_run (xx yy : ℚ) (ex ey : ℤ) (dx dy noise : ℚ)
    (rand : ℕ → ℚ) (hex : 1 ≤ ex) (hey : 1 ≤ ey) (hdx : 0 < dx)
    (hdy : 0 ≤ dy) (hnoise : 0 ≤ noise) :
    create_square_grid (xx, yy) ex (some ey) dx (some dy) noise rand =
      Except.ok
        (gridPoints xx yy ex ey dx (effDy dx (some dy)) noise rand,
         gen_grid_edges
           (np_reshape
             (gridPoints xx yy ex ey dx (effDy dx (some dy)) noise rand)
             (ex.toNat + 1) (ey.toNat + 1))) := by
  have hdyv : 0 < effDy dx (some dy) := effDy_pos dx dy hdx hdy
  have hney : effNumEdgeY ex (some ey) = ey := effNumEdgeY_of_pos ex ey hey
  have hcheck : check_input ex ey dx (effDy dx (some dy)) noise = none := by
    unfold check_input
    rw [if_neg (by omega),
      if_neg (by push_neg; exact ⟨le_of_lt hdx, le_of_lt hdyv, hnoise⟩)]
  have h0x : (0 : ℤ) ≤ ex := by omega
  have h0y : (0 : ℤ) ≤ ey := by omega
  have hcx : ((ex + 1 : ℤ) : ℚ) = ((ex.toNat + 1 : ℕ) : ℚ) := by
    rw [show ex + 1 = ((ex.toNat + 1 : ℕ) : ℤ) by omega]
    push_cast
    ring
  have hcy : ((ey + 1 : ℤ) : ℚ) = ((ey.toNat + 1 : ℕ) : ℚ) := by
    rw [show ey + 1 = ((ey.toNat + 1 : ℕ) : ℤ) by omega]
    push_cast
    ring
  have hax : arange xx (xx + dx * ((ex + 1 : ℤ) : ℚ)) dx
      = some (axisList xx dx (ex.toNat + 1)) := by
    rw [hcx]
    exact arange_pos xx dx (ex.toNat + 1) hdx
  have hay : arange yy (yy + effDy dx (some dy) * ((ey + 1 : ℤ) : ℚ))
        (effDy dx (some dy))
      = some (axisList yy (effDy dx (some dy)) (ey.toNat + 1)) := by
    rw [hcy]
    exact arange_pos yy (effDy dx (some dy)) (ey.toNat + 1) hdyv
  have htx : (ex + 1).toNat = ex.toNat + 1 := by omega
  have hty : (ey + 1).toNat = ey.toNat + 1 := by omega
  dsimp only [create_square_grid]
  rw [hney, hcheck, hax, hay, htx, hty]
  rfl

/-! ## Claims -/

lemma fuzzRadius_eq_min (noise d : ℚ) :
    fuzzRadius noise d = d * min noise MAX_NOISE := by
  unfold fuzzRadius
  split_ifs with h
  · rw [min_eq_right (le_of_lt h), mul_comm]
  · rw [min_eq_left (not_lt.mp h)]

/-- C8: for `noise_prop ≥ 0.45` the effective per-axis fuzz radius is
`0.45 * d` for axis step `d`; in particular `noise_prop = 0.9` yields
exactly the same radius as `noise_prop = 0.45`. -/
theorem C8_clamp_law (d noise : ℚ) (h : MAX_NOISE ≤ noise) :
    fuzzRadius noise d = MAX_NOISE * d ∧
      fuzzRadius (9 / 10) d = fuzzRadius (45 / 100) d := by
  constructor
  · rw [fuzzRadius_eq_min, min_eq_right h, mul_comm]
  · rw [fuzzRadius_eq_min, fuzzRadius_eq_min]
    norm_num [MAX_NOISE]

/-- Witness for C8 at `noise_prop = 0.9`, `d = 100`. -/
theorem C8_clamp_law_witness :
    MAX_NOISE ≤ (9 / 10 : ℚ) ∧
      (fuzzRadius (9 / 10) (100 : ℚ) = MAX_NOISE * 100 ∧
        fuzzRadius (9 / 10) (100 : ℚ) = fuzzRadius (45 / 100) (100 : ℚ)) :=
  ⟨by norm_num [MAX_NOISE], C8_clamp_law 100 (9 / 10) (by norm_num [MAX_NOISE])⟩

/-- With `noise_prop = 0` the random stream is dead code: the fuzz
branch (line 80, `if noise_prop > 0.0`) is not taken, so the result is
the same for any two streams. -/
lemma create_noiseless_rand_indep (o : Pt) (num_edge_x : ℤ)
    (num_edge_y : Option ℤ) (dx : ℚ) (dy : Option ℚ) (rand₁ rand₂ : ℕ → ℚ) :
    create_square_grid o num_edge_x num_edge_y dx dy 0 rand₁ =
      create_square_grid o num_edge_x num_edge_y dx dy 0 rand₂ := by
  dsimp only [create_square_grid]
  simp only [gt_iff_lt, lt_self_iff_false, if_false]

/-- C9: with `noise_prop = 0` the computation never consults the random
stream: two calls with identical parameters and arbitrary (possibly
different) random streams return identical vertex and edge collections. -/
theorem C9_deterministic_without_noise (o : Pt) (num_edge_x : ℤ)
    (num_edge_y : Option ℤ) (dx : ℚ) (dy : Option ℚ) (rand₁ rand₂ : ℕ → ℚ) :
    create_square_grid o num_edge_x num_edge_y dx dy 0 rand₁ =
      create_square_grid o num_edge_x num_edge_y dx dy 0 rand₂ :=
  create_noiseless_rand_indep o num_edge_x num_edge_y dx dy rand₁ rand₂

/-- C10: passing `dy = 0` explicitly behaves exactly like omitting `dy`:
line 57 replaces the falsy value by `dx` before validation and
generation, so the whole call is unchanged, and the effective vertical
step is `dx`. -/
theorem C10_zero_dy_defaults_to_dx (o : Pt) (num_edge_x : ℤ)
    (num_edge_y : Option ℤ) (dx noise : ℚ) (rand : ℕ → ℚ) :
    create_square_grid o num_edge_x num_edge_y dx (some 0) noise rand =
      create_square_grid o num_edge_x num_edge_y dx none noise rand ∧
    effDy dx (some 0) = dx := by
  have h : effDy dx (some 0) = effDy dx none := by
    show (if (0 : ℚ) = 0 then dx else 0) = dx
    rw [if_pos rfl]
  constructor
  · dsimp only [create_square_grid]
    rw [h]
  · rw [h]
    rfl

/-- C1 counterexample: the claim admits `dx = 0` as valid
(`dx, dy, noise_prop ≥ 0`), but `dx = 0` passes `_check_input` (which
only rejects negative values) and then crashes in `np.arange` with a
zero step, so no vertex or edge collection is returned at all. -/
theorem C1_counterexample :
    create_square_grid (0, 0) 1 (some 1) 0 (some 0) 0 (fun _ => 0) =
      Except.error GridError.zeroDivisionError := by
  rfl

/-- C1 (amended: the horizontal step must be positive, `dx > 0`; an
explicit `dy = 0` is allowed since line 57 replaces it by `dx`): the
call returns exactly `(num_edge_x+1)*(num_edge_y+1)` vertices and
`num_edge_x*(num_edge_y+1) + num_edge_y*(num_edge_x+1)` edges. -/
theorem C1_counts (xx yy : ℚ) (ex ey : ℤ) (dx dy noise : ℚ)
    (rand : ℕ → ℚ) (hex : 1 ≤ ex) (hey : 1 ≤ ey) (hdx : 0 < dx)
    (hdy : 0 ≤ dy) (hnoise : 0 ≤ noise) :
    ∃ pts edges,
      create_square_grid (xx, yy) ex (some ey) dx (some dy) noise rand =
        Except.ok (pts, edges) ∧
      (pts.length : ℤ) = (ex + 1) * (ey + 1) ∧
      (edges.length : ℤ) = ex * (ey + 1) + ey * (ex + 1) := by
  have h1 : (ex.toNat : ℤ) = ex := Int.toNat_of_nonneg (by omega)
  have h2 : (ey.toNat : ℤ) = ey := Int.toNat_of_nonneg (by omega)
  refine ⟨_, _,
    create_square_grid_run xx yy ex ey dx dy noise rand hex hey hdx hdy hnoise,
    ?_, ?_⟩
  · rw [gridPoints_length]
    push_cast [h1, h2]
    ring
  · rw [gen_grid_edges_reshape _ _ _ (by omega), List.length_append,
      rowBatch_length, colBatch_length]
    simp only [Nat.add_sub_cancel]
    push_cast [h1, h2]
    ring

/-- Witness for C1 (amended) at the spec's 2×2 example scaled to
`num_edge_x = 2`, `num_edge_y = 1`: 6 vertices and 7 edges. -/
theorem C1_counts_witness :
    ∃ pts edges,
      create_square_grid (0, 0) 2 (some 1) 1 (some 1) 0 (fun _ => 0) =
        Except.ok (pts, edges) ∧
      (pts.length : ℤ) = (2 + 1) * (1 + 1) ∧
      (edges.length : ℤ) = 2 * (1 + 1) + 1 * (2 + 1) :=
  C1_counts 0 0 2 1 1 1 0 (fun _ => 0) (by norm_num) (by norm_num)
    (by norm_num) (by norm_num) (by norm_num)

/-- C3 counterexample: an explicitly passed `num_edge_y = 0` does not
raise a value error — line 58 treats `0` as falsy and silently replaces
it by `num_edge_x` before `_check_input` runs, so the call succeeds. -/
theorem C3_counterexample :
    (create_square_grid (0, 0) 1 (some 0) 1 (some 1) 0 (fun _ => 0)).isOk
      = true := by
  rfl

/-- C3 (amended): the call fails with a value error before producing
any output whenever `num_edge_x < 1` or `num_edge_y < 0` — the
explicitly passed value `num_edge_y = 0` is excluded, because line 58
replaces the falsy `0` by `num_edge_x` before validation. -/
theorem C3_invalid_range (xx yy : ℚ) (ex ey : ℤ) (dx dy noise : ℚ)
    (rand : ℕ → ℚ) (h : ex < 1 ∨ ey < 0) :
    create_square_grid (xx, yy) ex (some ey) dx (some dy) noise rand =
      Except.error GridError.valueError := by
  have hcheck : check_input ex (effNumEdgeY ex (some ey)) dx
      (effDy dx (some dy)) noise = some GridError.valueError := by
    have hy : effNumEdgeY ex (some ey) = if ey = 0 then ex else ey := rfl
    unfold check_input
    rw [hy, if_pos]
    rcases h with h | h
    · exact Or.inl h
    · exact Or.inr (by rw [if_neg (by omega : ¬ey = 0)]; omega)
  dsimp only [create_square_grid]
  rw [hcheck]

/-- Witness for C3 (amended), the spec's own error example
`num_edge_x = 0`, `num_edge_y = 1`. -/
theorem C3_invalid_range_witness :
    ((0 : ℤ) < 1 ∨ (1 : ℤ) < 0) ∧
      create_square_grid (0, 0) 0 (some 1) 1 (some 1) 0 (fun _ => 0) =
        Except.error GridError.valueError :=
  ⟨Or.inl (by norm_num),
    C3_invalid_range 0 0 0 1 1 1 0 (fun _ => 0) (Or.inl (by norm_num))⟩

/-- C2: with `noise_prop = 0` and positive steps, the vertex stored at
flat position `i*num_vert_y + j` (lattice indices `(i, j)`) is exactly
`(x0 + i*dx, y0 + j*dy)`, and the random stream is never consulted:
the whole result is independent of it. -/
theorem C2_exact_lattice (xx yy : ℚ) (ex ey : ℤ) (dx dy : ℚ)
    (rand rand' : ℕ → ℚ) (i j : ℕ) (hex : 1 ≤ ex) (hey : 1 ≤ ey)
    (hdx : 0 < dx) (hdy : 0 < dy) (hi : (i : ℤ) ≤ ex) (hj : (j : ℤ) ≤ ey) :
    ∃ pts edges,
      create_square_grid (xx, yy) ex (some ey) dx (some dy) 0 rand =
        Except.ok (pts, edges) ∧
      pts.getD (i * (ey.toNat + 1) + j) (0, 0) =
        (xx + (i : ℚ) * dx, yy + (j : ℚ) * dy) ∧
      create_square_grid (xx, yy) ex (some ey) dx (some dy) 0 rand =
        create_square_grid (xx, yy) ex (some ey) dx (some dy) 0 rand' := by
  have hrun := create_square_grid_run xx yy ex ey dx dy 0 rand hex hey hdx
    hdy.le le_rfl
  rw [effDy_of_pos dx dy hdy] at hrun
  refine ⟨_, _, hrun, ?_,
    create_noiseless_rand_indep (xx, yy) ex (some ey) dx (some dy) rand rand'⟩
  rw [gridPoints_getD xx yy ex ey dx dy 0 rand i j (by omega) (by omega),
    if_neg (by norm_num : ¬((0 : ℚ) > 0))]

/-- Witness for C2 at origin `(0, 0)`, a 2×2-edge grid with `dx = dy
= 100`, lattice point `(1, 2)`. -/
theorem C2_exact_lattice_witness :
    ∃ pts edges,
      create_square_grid (0, 0) 2 (some 2) 100 (some 100) 0 (fun _ => 0) =
        Except.ok (pts, edges) ∧
      pts.getD (1 * ((2 : ℤ).toNat + 1) + 2) (0, 0) =
        (0 + ((1 : ℕ) : ℚ) * 100, 0 + ((2 : ℕ) : ℚ) * 100) ∧
      create_square_grid (0, 0) 2 (some 2) 100 (some 100) 0 (fun _ => 0) =
        create_square_grid (0, 0) 2 (some 2) 100 (some 100) 0 (fun _ => 1) :=
  C2_exact_lattice 0 0 2 2 100 100 (fun _ => 0) (fun _ => 1) 1 2
    (by norm_num) (by norm_num) (by norm_num) (by norm_num) (by norm_num)
    (by norm_num)

lemma fuzz_offset_bounds (r u : ℚ) (hr : 0 ≤ r) (hu0 : 0 ≤ u)
    (hu1 : u < 1) : -r ≤ r * (2 * u - 1) ∧ r * (2 * u - 1) ≤ r := by
  constructor <;> nlinarith

/-- C5: with `noise_prop > 0` and every random draw in `[0, 1)`, each
coordinate of the perturbed vertex at lattice `(i, j)` lies within
`radius` of its nominal value, where `radius = dx * min noise_prop
MAX_NOISE` on the x axis and `dy * min noise_prop MAX_NOISE` on the
y axis (`MAX_NOISE = 0.45`). -/
theorem C5_noise_bounds (xx yy : ℚ) (ex ey : ℤ) (dx dy noise : ℚ)
    (rand : ℕ → ℚ) (i j : ℕ) (hex : 1 ≤ ex) (hey : 1 ≤ ey)
    (hdx : 0 < dx) (hdy : 0 < dy) (hnoise : 0 < noise)
    (hrand : ∀ n, 0 ≤ rand n ∧ rand n < 1)
    (hi : (i : ℤ) ≤ ex) (hj : (j : ℤ) ≤ ey) :
    ∃ pts edges,
      create_square_grid (xx, yy) ex (some ey) dx (some dy) noise rand =
        Except.ok (pts, edges) ∧
      xx + (i : ℚ) * dx - dx * min noise MAX_NOISE ≤
          (pts.getD (i * (ey.toNat + 1) + j) (0, 0)).1 ∧
      (pts.getD (i * (ey.toNat + 1) + j) (0, 0)).1 ≤
          xx + (i : ℚ) * dx + dx * min noise MAX_NOISE ∧
      yy + (j : ℚ) * dy - dy * min noise MAX_NOISE ≤
          (pts.getD (i * (ey.toNat + 1) + j) (0, 0)).2 ∧
      (pts.getD (i * (ey.toNat + 1) + j) (0, 0)).2 ≤
          yy + (j : ℚ) * dy + dy * min noise MAX_NOISE := by
  have hrun := create_square_grid_run xx yy ex ey dx dy noise rand hex hey hdx
    hdy.le hnoise.le
  rw [effDy_of_pos dx dy hdy] at hrun
  refine ⟨_, _, hrun, ?_, ?_, ?_, ?_⟩ <;>
  · rw [gridPoints_getD xx yy ex ey dx dy noise rand i j (by omega) (by omega),
      if_pos (by exact hnoise : noise > 0)]
    simp only [fuzzRadius_eq_min, fuzzPoint]
    have hmin : (0 : ℚ) ≤ min noise MAX_NOISE := by
      have : (0 : ℚ) < MAX_NOISE := by norm_num [MAX_NOISE]
      positivity
    have hbx := fuzz_offset_bounds (dx * min noise MAX_NOISE)
      (rand (2 * (i * (ey.toNat + 1) + j)))
      (by positivity) (hrand _).1 (hrand _).2
    have hby := fuzz_offset_bounds (dy * min noise MAX_NOISE)
      (rand (2 * (i * (ey.toNat + 1) + j) + 1))
      (by positivity) (hrand _).1 (hrand _).2
    linarith [hbx.1, hbx.2, hby.1, hby.2]

/-- Witness for C5: unit grid, `noise_prop = 0.2`, constant draw `1/4`. -/
theorem C5_noise_bounds_witness :
    ∃ pts edges,
      create_square_grid (0, 0) 1 (some 1) 1 (some 1) (2 / 10)
          (fun _ => 1 / 4) = Except.ok (pts, edges) ∧
      0 + ((1 : ℕ) : ℚ) * 1 - 1 * min (2 / 10) MAX_NOISE ≤
          (pts.getD (1 * ((1 : ℤ).toNat + 1) + 0) (0, 0)).1 ∧
      (pts.getD (1 * ((1 : ℤ).toNat + 1) + 0) (0, 0)).1 ≤
          0 + ((1 : ℕ) : ℚ) * 1 + 1 * min (2 / 10) MAX_NOISE ∧
      0 + ((0 : ℕ) : ℚ) * 1 - 1 * min (2 / 10) MAX_NOISE ≤
          (pts.getD (1 * ((1 : ℤ).toNat + 1) + 0) (0, 0)).2 ∧
      (pts.getD (1 * ((1 : ℤ).toNat + 1) + 0) (0, 0)).2 ≤
          0 + ((0 : ℕ) : ℚ) * 1 + 1 * min (2 / 10) MAX_NOISE :=
  C5_noise_bounds 0 0 1 1 1 1 (2 / 10) (fun _ => 1 / 4) 1 0 (by norm_num)
    (by norm_num) (by norm_num) (by norm_num) (by norm_num)
    (fun n => by norm_num) (by norm_num) (by norm_num)

/-- C6: the flat vertex sequence is row-major with axis 0 varying
slower: the point stored at flat index `i*num_vert_y + j` is (the
perturbation of) lattice point `(i, j)`, and the matrix handed to edge
synthesis is exactly the `(num_vert_x, num_vert_y)` reshape of the flat
sequence — perturbation moves a point but never its logical slot. -/
theorem C6_row_major (xx yy : ℚ) (ex ey : ℤ) (dx dy noise : ℚ)
    (rand : ℕ → ℚ) (i j : ℕ) (hex : 1 ≤ ex) (hey : 1 ≤ ey)
    (hdx : 0 < dx) (hdy : 0 < dy) (hnoise : 0 ≤ noise)
    (hi : (i : ℤ) ≤ ex) (hj : (j : ℤ) ≤ ey) :
    ∃ pts edges,
      create_square_grid (xx, yy) ex (some ey) dx (some dy) noise rand =
        Except.ok (pts, edges) ∧
      edges = gen_grid_edges (np_reshape pts (ex.toNat + 1) (ey.toNat + 1)) ∧
      pts.getD (i * (ey.toNat + 1) + j) (0, 0) =
        (if noise > 0 then
          fuzzPoint (fuzzRadius noise dx) (fuzzRadius noise dy)
            (rand (2 * (i * (ey.toNat + 1) + j)))
            (rand (2 * (i * (ey.toNat + 1) + j) + 1))
            (xx + (i : ℚ) * dx, yy + (j : ℚ) * dy)
        else (xx + (i : ℚ) * dx, yy + (j : ℚ) * dy)) := by
  have hrun := create_square_grid_run xx yy ex ey dx dy noise rand hex hey hdx
    hdy.le hnoise
  rw [effDy_of_pos dx dy hdy] at hrun
  exact ⟨_, _, hrun, rfl,
    gridPoints_getD xx yy ex ey dx dy noise rand i j (by omega) (by omega)⟩

/-- Witness for C6: 1×1-edge grid, `noise_prop = 0.1`, constant draw
`1/2`, lattice point `(0, 1)`. -/
theorem C6_row_major_witness :
    ∃ pts edges,
      create_square_grid (0, 0) 1 (some 1) 10 (some 10) (1 / 10)
          (fun _ => 1 / 2) = Except.ok (pts, edges) ∧
      edges = gen_grid_edges
          (np_reshape pts ((1 : ℤ).toNat + 1) ((1 : ℤ).toNat + 1)) ∧
      pts.getD (0 * ((1 : ℤ).toNat + 1) + 1) (0, 0) =
        (if (1 / 10 : ℚ) > 0 then
          fuzzPoint (fuzzRadius (1 / 10) 10) (fuzzRadius (1 / 10) 10)
            ((fun _ : ℕ => (1 / 2 : ℚ)) (2 * (0 * ((1 : ℤ).toNat + 1) + 1)))
            ((fun _ : ℕ => (1 / 2 : ℚ)) (2 * (0 * ((1 : ℤ).toNat + 1) + 1) + 1))
            (0 + ((0 : ℕ) : ℚ) * 10, 0 + ((1 : ℕ) : ℚ) * 10)
        else (0 + ((0 : ℕ) : ℚ) * 10, 0 + ((1 : ℕ) : ℚ) * 10)) :=
  C6_row_major 0 0 1 1 10 10 (1 / 10) (fun _ => 1 / 2) 0 1 (by norm_num)
    (by norm_num) (by norm_num) (by norm_num) (by norm_num) (by norm_num)
    (by norm_num)

/-- C7: every synthesized edge connects two lattice-adjacent vertices:
its endpoints are the flat points at positions `(i, j)` and
`(i, j+1)`, or at `(i, j)` and `(i+1, j)` — one step along exactly one
axis, never diagonal or longer. -/
theorem C7_adjacency (xx yy : ℚ) (ex ey : ℤ) (dx dy noise : ℚ)
    (rand : ℕ → ℚ) (hex : 1 ≤ ex) (hey : 1 ≤ ey) (hdx : 0 < dx)
    (hdy : 0 ≤ dy) (hnoise : 0 ≤ noise) :
    ∃ pts edges,
      create_square_grid (xx, yy) ex (some ey) dx (some dy) noise rand =
        Except.ok (pts, edges) ∧
      ∀ e ∈ edges,
        (∃ i j : ℕ, i < ex.toNat + 1 ∧ j + 1 < ey.toNat + 1 ∧
          e = (pts.getD (i * (ey.toNat + 1) + j) (0, 0),
               pts.getD (i * (ey.toNat + 1) + (j + 1)) (0, 0))) ∨
        (∃ i j : ℕ, i + 1 < ex.toNat + 1 ∧ j < ey.toNat + 1 ∧
          e = (pts.getD (i * (ey.toNat + 1) + j) (0, 0),
               pts.getD ((i + 1) * (ey.toNat + 1) + j) (0, 0))) := by
  refine ⟨_, _,
    create_square_grid_run xx yy ex ey dx dy noise rand hex hey hdx hdy hnoise,
    ?_⟩
  intro e he
  rw [gen_grid_edges_reshape _ _ _ (by omega)] at he
  rcases List.mem_append.mp he with h | h
  · unfold rowBatch at h
    obtain ⟨i, hi, hmem⟩ := List.mem_flatMap.mp h
    obtain ⟨j, hjmem, rfl⟩ := List.mem_map.mp hmem
    rw [List.mem_range] at hi hjmem
    exact Or.inl ⟨i, j, hi, by omega, rfl⟩
  · unfold colBatch at h
    obtain ⟨j, hj, hmem⟩ := List.mem_flatMap.mp h
    obtain ⟨i, himem, rfl⟩ := List.mem_map.mp hmem
    rw [List.mem_range] at hj himem
    exact Or.inr ⟨i, j, by omega, hj, rfl⟩

/-- Witness for C7 on the spec's 2×2 example. -/
theorem C7_adjacency_witness :
    ∃ pts edges,
      create_square_grid (0, 0) 2 (some 2) 100 (some 100) 0 (fun _ => 0) =
        Except.ok (pts, edges) ∧
      ∀ e ∈ edges,
        (∃ i j : ℕ, i < (2 : ℤ).toNat + 1 ∧ j + 1 < (2 : ℤ).toNat + 1 ∧
          e = (pts.getD (i * ((2 : ℤ).toNat + 1) + j) (0, 0),
               pts.getD (i * ((2 : ℤ).toNat + 1) + (j + 1)) (0, 0))) ∨
        (∃ i j : ℕ, i + 1 < (2 : ℤ).toNat + 1 ∧ j < (2 : ℤ).toNat + 1 ∧
          e = (pts.getD (i * ((2 : ℤ).toNat + 1) + j) (0, 0),
               pts.getD ((i + 1) * ((2 : ℤ).toNat + 1) + j) (0, 0))) :=
  C7_adjacency 0 0 2 2 100 100 0 (fun _ => 0) (by norm_num) (by norm_num)
    (by norm_num) (by norm_num) (by norm_num)

/-- C4 (amended: the two batch descriptions were swapped — the first,
row-by-row batch holds `num_edge_y` segments per row over `num_vert_x`
rows, `num_edge_y*num_vert_x` segments in all, and the batch from the
transposed array holds the remaining `num_edge_x*num_vert_y`): the edge
sequence is exactly the row-by-row consecutive-pair segments (first
index fixed, index 1 varying) followed by the transposed-array
segments (index 1 fixed, first index varying). -/
theorem C4_batches (xx yy : ℚ) (ex ey : ℤ) (dx dy noise : ℚ)
    (rand : ℕ → ℚ) (hex : 1 ≤ ex) (hey : 1 ≤ ey) (hdx : 0 < dx)
    (hdy : 0 ≤ dy) (hnoise : 0 ≤ noise) :
    ∃ pts edges,
      create_square_grid (xx, yy) ex (some ey) dx (some dy) noise rand =
        Except.ok (pts, edges) ∧
      edges = rowBatch pts (ex.toNat + 1) (ey.toNat + 1) ++
        colBatch pts (ex.toNat + 1) (ey.toNat + 1) ∧
      ((rowBatch pts (ex.toNat + 1) (ey.toNat + 1)).length : ℤ) =
        ey * (ex + 1) ∧
      ((colBatch pts (ex.toNat + 1) (ey.toNat + 1)).length : ℤ) =
        ex * (ey + 1) := by
  have h1 : (ex.toNat : ℤ) = ex := Int.toNat_of_nonneg (by omega)
  have h2 : (ey.toNat : ℤ) = ey := Int.toNat_of_nonneg (by omega)
  refine ⟨_, _,
    create_square_grid_run xx yy ex ey dx dy noise rand hex hey hdx hdy hnoise,
    gen_grid_edges_reshape _ _ _ (by omega), ?_, ?_⟩
  · rw [rowBatch_length]
    simp only [Nat.add_sub_cancel]
    push_cast [h1, h2]
    ring
  · rw [colBatch_length]
    simp only [Nat.add_sub_cancel]
    push_cast [h1, h2]
    ring

/-- Witness for C4 (amended) on the 2×1-edge grid: 3 + 4 edges. -/
theorem C4_batches_witness :
    ∃ pts edges,
      create_square_grid (0, 0) 2 (some 1) 1 (some 1) 0 (fun _ => 0) =
        Except.ok (pts, edges) ∧
      edges = rowBatch pts ((2 : ℤ).toNat + 1) ((1 : ℤ).toNat + 1) ++
        colBatch pts ((2 : ℤ).toNat + 1) ((1 : ℤ).toNat + 1) ∧
      ((rowBatch pts ((2 : ℤ).toNat + 1) ((1 : ℤ).toNat + 1)).length : ℤ) =
        1 * (2 + 1) ∧
      ((colBatch pts ((2 : ℤ).toNat + 1) ((1 : ℤ).toNat + 1)).length : ℤ) =
        2 * (1 + 1) :=
  C4_batches 0 0 2 1 1 1 0 (fun _ => 0) (by norm_num) (by norm_num)
    (by norm_num) (by norm_num) (by norm_num)

/-- C4 counterexample: on the grid with `num_edge_x = 2`,
`num_edge_y = 1` (so `num_edge_x*num_vert_y = 4`), the edge at position
3 — which the claim places inside the first batch of four segments with
the first lattice index fixed — runs from `x = 0` to `x = 1`: its first
lattice index varies, because the actual first batch holds only
`num_edge_y*num_vert_x = 3` segments. -/
theorem C4_counterexample :
    (create_square_grid (0, 0) 2 (some 1) 1 (some 1) 0
        (fun _ => 0)).toOption.map
      (fun r => ((r.2.getD 3 ((0, 0), (0, 0))).1.1,
                 (r.2.getD 3 ((0, 0), (0, 0))).2.1)) = some (0, 1) := by
  have hrun := create_square_grid_run 0 0 2 1 1 1 0 (fun _ => 0)
    (by norm_num) (by norm_num) (by norm_num) (by norm_num) (by norm_num)
  rw [effDy_of_pos 1 1 (by norm_num)] at hrun
  rw [hrun]
  simp only [Except.toOption, Option.map_some']
  have hP : gridPoints 0 0 2 1 1 1 0 (fun _ => (0 : ℚ)) =
      gridPoints0 0 0 2 1 1 1 := by
    unfold gridPoints
    rw [if_neg (by norm_num : ¬((0 : ℚ) > 0))]
  have e0 := gridPoints0_getD 0 0 2 1 1 1 0 0 (by norm_num) (by norm_num)
  have e2 := gridPoints0_getD 0 0 2 1 1 1 1 0 (by norm_num) (by norm_num)
  norm_num at e0 e2
  rw [show ((2 : ℤ).toNat + 1) = 3 from rfl, show ((1 : ℤ).toNat + 1) = 2 from rfl,
    gen_grid_edges_reshape _ 3 2 (by norm_num), hP,
    List.getD_append_right _ _ _ _ (by rw [rowBatch_length]),
    rowBatch_length]
  norm_num [colBatch, List.range_succ]
  rw [e0, e2]
  exact ⟨rfl, rfl⟩
